import Mathlib

/-!
Verification of the concurrent task-execution core of cp2077-voiceswap:
the bounded task runner (`src/util/parallel.py`) and the durable
multi-process worker pool (`src/lib/uvr.py`).

The Python code is shallowly embedded: the `JoinableQueue` bookkeeping,
the worker loop of `UVRProcess.run`, the manager `UVRProcessManager`,
and the cooperative scheduling of `Parallel` become executable Lean
functions and small-step state machines, and the claimed properties are
proved (or refuted) about those definitions.
-/

/-! ## Work items and the joinable queue

`UVRProcessManager` submits tuples
`(input_path, output_path, file, wanted_model)` onto a
`torch.multiprocessing.JoinableQueue`.  A `JoinableQueue` keeps an
"unfinished tasks" counter: `put` increments it, `task_done` decrements
it (raising `ValueError` when it is already zero), and `join` blocks
until it reaches zero.  We model the queue as the list of items present
plus the unfinished counter. -/

structure WorkItem where
  inputLocation : String
  outputLocation : String
  fileKey : String
  modelTag : String
deriving DecidableEq, Repr

/-- State of a `JoinableQueue` of work items: the items currently
retrievable and the unfinished-tasks counter. -/
structure JQueue where
  items : List WorkItem
  unfinished : Nat
deriving DecidableEq, Repr

namespace JQueue

/-- Model of `JoinableQueue.put`: enqueue an item and increment the unfinished
counter. -/
def put (q : JQueue) (it : WorkItem) : JQueue :=
  ⟨q.items ++ [it], q.unfinished + 1⟩

/-- Model of `JoinableQueue.get`: dequeue the next available item.  Does not touch
the unfinished counter (only `task_done` does).  `none` models the
`Empty` timeout of `get(timeout=0.1)`. -/
def get (q : JQueue) : Option (WorkItem × JQueue) :=
  match q.items with
  | [] => none
  | it :: rest => some (it, ⟨rest, q.unfinished⟩)

/-- Model of `JoinableQueue.task_done`: decrement the unfinished counter;
`none` models the `ValueError` raised when it is already zero. -/
def task_done (q : JQueue) : Option JQueue :=
  match q.unfinished with
  | 0 => none
  | n + 1 => some ⟨q.items, n⟩

/-- An empty joinable queue. -/
def empty : JQueue := ⟨[], 0⟩

end JQueue

/-! Operation sequences on the queue, for the conservation invariant.
`requeue` is the `put` performed by a failing worker; it behaves exactly
as an enqueue (the code calls the same `self._queue.put`). -/

inductive QOp where
  | enqueue (it : WorkItem)
  | requeue (it : WorkItem)
  | ack
deriving DecidableEq, Repr

/-- Run a sequence of queue operations; `none` when an `ack`
(`task_done`) fires with a zero unfinished counter. -/
def execOps (q : JQueue) : List QOp → Option JQueue
  | [] => some q
  | op :: ops =>
    match op with
    | .enqueue it => execOps (q.put it) ops
    | .requeue it => execOps (q.put it) ops
    | .ack =>
      match q.task_done with
      | none => none
      | some q' => execOps q' ops

/-- Number of enqueue-like operations (initial enqueues and requeues)
in a sequence. -/
def enqCount : List QOp → Nat
  | [] => 0
  | .enqueue _ :: ops => enqCount ops + 1
  | .requeue _ :: ops => enqCount ops + 1
  | .ack :: ops => enqCount ops

/-- Number of acknowledgements (`task_done` calls) in a sequence. -/
def ackCount : List QOp → Nat
  | [] => 0
  | .enqueue _ :: ops => ackCount ops
  | .requeue _ :: ops => ackCount ops
  | .ack :: ops => ackCount ops + 1

/-- The failure path of `UVRProcess.run` (lines 150-154): on an
unrecoverable exception the worker `put`s the original tuple back and
then — in the `finally` block, as the exception propagates —
calls `task_done` on the original dequeue. -/
def workerFailurePath (q : JQueue) (it : WorkItem) : Option JQueue :=
  (q.put it).task_done

/-! ## The manager: `UVRProcessManager.submit` / `set_model`

`submit` raises `ValueError("No model has been set yet.")` when no model
tag has been set, before anything touches the queue; otherwise it puts
`(input_path, output_path, file, self._wanted_model)` on the queue. -/

structure ManagerState where
  queue : JQueue
  wantedModel : Option String
deriving DecidableEq, Repr

/-- Model of `UVRProcessManager.set_model`. -/
def set_model (m : ManagerState) (model : String) : ManagerState :=
  { m with wantedModel := some model }

/-- Model of `UVRProcessManager.submit`: an `Except.error` models the synchronous
`ValueError`; since it is raised before the `put`, the caller's state is
unchanged on error. -/
def submit (m : ManagerState) (inputPath outputPath file : String) :
    Except String ManagerState :=
  match m.wantedModel with
  | none => .error "No model has been set yet."
  | some tag =>
    .ok { m with queue := m.queue.put ⟨inputPath, outputPath, file, tag⟩ }

/-! ## The worker's model (re)load logic

`UVRProcess.run`, lines 142-144: on each dequeued item, compare
`wanted_model` to `self._last_model` (initially `None`); when they
differ, call `load_model` and record the tag as last-loaded. -/

/-- One dequeue's load decision: returns the new `_last_model` and
whether `load_model` was called. -/
def loadStep (last : Option String) (wanted : String) :
    Option String × Bool :=
  if some wanted ≠ last then (some wanted, true) else (last, false)

/-- Load decisions over a whole sequence of dequeued tags: `true` at
position `i` exactly when the worker (re)loaded for item `i`. -/
def loadEvents (last : Option String) : List String → List Bool
  | [] => []
  | t :: ts => (loadStep last t).2 :: loadEvents (loadStep last t).1 ts

/-! ## The worker's in-process retry (`UVRProcess._separate`)

`_separate` calls the external separator; a `librosa` `ParameterError`
is the known-transient case and is retried while `attempt < 3`; any
other exception propagates at once.  The external call's outcome on the
k-th attempt is abstracted as `outcome k`. -/

inductive SepError where
  | parameterError
  | otherError (msg : String)
deriving DecidableEq, Repr

/-- Model of `UVRProcess._separate` (lines 96-101), abstracting the separator
call as `outcome : Nat → Except SepError Unit`. -/
def _separate (outcome : Nat → Except SepError Unit) (attempt : Nat) :
    Except SepError Unit :=
  match outcome attempt with
  | .ok r => .ok r
  | .error .parameterError =>
    if _h : attempt < 3 then _separate outcome (attempt + 1)
    else .error .parameterError
  | .error (.otherError m) => .error (.otherError m)
termination_by 3 - attempt
decreasing_by omega

/-! ## The pool: construction and the watch loop's respawn pass

`UVRProcessManager.__init__` builds a set of `jobs` fresh workers and
starts each one.  Each `watch()` iteration scans a copy of the worker
set; every worker whose `exitcode` is not `None` (the process exited) is
removed and replaced by exactly one freshly started worker. -/

structure WorkerHandle where
  exitcode : Option Int
deriving DecidableEq, Repr

/-- A freshly constructed and started worker: still running, so its
`exitcode` is `None`. -/
def freshWorker : WorkerHandle := ⟨none⟩

/-- The worker set built by `UVRProcessManager.__init__(jobs)`. -/
def initWorkers (jobs : Nat) : List WorkerHandle :=
  List.replicate jobs freshWorker

/-- The dead-worker scan of one `watch()` iteration (lines 251-257):
each exited worker is removed and one replacement is started in its
place; live workers are untouched. -/
def respawnDead (ws : List WorkerHandle) : List WorkerHandle :=
  ws.map fun w => if w.exitcode.isSome then freshWorker else w

/-- Number of live (not yet exited) workers. -/
def liveCount (ws : List WorkerHandle) : Nat :=
  ws.countP fun w => w.exitcode.isNone

/-! ## `UVRProcess.terminate` and the stop flag

`UVRProcess.__init__` stores `self._run = Value(ctypes.c_bool, False)`.
Once the process is started, the parent (manager) process and the child
(worker) process each hold their own copy of the object's attribute
dictionary; rebinding the attribute in one process is invisible to the
other (only mutations of the shared `Value`'s `.value` field cross the
boundary).  Python truthiness of the attribute: a `Value` wrapper object
is always truthy, whatever its `.value`; a plain `bool` is itself. -/

inductive RunFlag where
  | sharedVal (v : Bool)
  | plainBool (b : Bool)
deriving DecidableEq, Repr

/-- Python truthiness of the `_run` attribute (`if self._run:`,
`while self._run:`). -/
def truthy : RunFlag → Bool
  | .sharedVal _ => true
  | .plainBool b => b

/-- A started worker process, with the parent's and the child's copies
of the `_run` attribute, and whether `Process.terminate` (a hard kill)
has been invoked on it. -/
structure SpawnedWorker where
  parentRun : RunFlag
  childRun : RunFlag
  hardKilled : Bool
deriving DecidableEq, Repr

/-- A worker right after `UVRProcess.__init__` and `start()`:
both copies of `_run` hold the shared `Value(c_bool, False)`. -/
def startedWorker : SpawnedWorker :=
  ⟨.sharedVal false, .sharedVal false, false⟩

/-- Model of `UVRProcess.terminate` (lines 103-107), executed in the parent:
`if self._run: self._run = False` rebinds the parent-side attribute to a
plain `False`; `else: Process.terminate(self)` hard-kills.  The child's
copy of the attribute is untouched in either branch. -/
def terminate (w : SpawnedWorker) : SpawnedWorker :=
  if truthy w.parentRun then
    { w with parentRun := .plainBool false }
  else
    { w with hardKilled := true }

/-- The dequeue-loop condition the worker re-checks at each poll timeout
(`while self._run:` at line 133), evaluated in the child process. -/
def loopCond (w : SpawnedWorker) : Bool :=
  truthy w.childRun

/-! ## Progress configuration and `watch()`'s entry

`UVRProcessManager._get_progress_task` raises
`RuntimeError("Progress has not been configured.")` when either
`_progress_display` or `_progress_task_id` is `None`; otherwise it
retrieves the task by id from the display.  `watch()` calls it before
entering the polling loop and returns at once when the task's total is
zero. -/

structure ProgressTask where
  total : Option Nat
  completed : Nat
  visible : Bool
deriving DecidableEq, Repr

/-- The manager's progress-related fields: the bound display (a list of
tasks keyed by id), the bound task id, and the shared completion
counter. -/
structure WatchState where
  display : Option (List (Nat × ProgressTask))
  taskId : Option Nat
  counter : Nat
deriving DecidableEq, Repr

/-- The fields as `UVRProcessManager.__init__` leaves them: no display
and no task bound. -/
def initWatchState : WatchState := ⟨none, none, 0⟩

/-- Model of `UVRProcessManager._get_progress_task` (lines 214-232). -/
def _get_progress_task (ws : WatchState) : Except String ProgressTask :=
  match ws.display, ws.taskId with
  | some tasks, some tid =>
    match tasks.lookup tid with
    | some t => .ok t
    | none => .error "task id not found"
  | _, _ => .error "Progress has not been configured."

/-- Update one task of a display in place (`Progress.update`): a `none`
argument means the corresponding keyword was not passed and the field is
left unchanged. -/
def updateTask (tasks : List (Nat × ProgressTask)) (tid : Nat)
    (total : Option Nat) (completed : Option Nat) (visible : Option Bool) :
    List (Nat × ProgressTask) :=
  tasks.map fun p =>
    if p.1 = tid then
      (p.1,
        { total := match total with | some t => some t | none => p.2.total
          completed := completed.getD p.2.completed
          visible := visible.getD p.2.visible })
    else p

/-- Model of `UVRProcessManager.configure_progress` (lines 186-207): binds the
display and task id, zeroes the shared counter, and updates the task
with `completed = 0` plus the given `total`/`visible` when present. -/
def configure_progress (_ws : WatchState)
    (progress : List (Nat × ProgressTask)) (tid : Nat)
    (total : Option Nat) (visible : Option Bool) : WatchState :=
  { display := some (updateTask progress tid total (some 0) visible)
    taskId := some tid
    counter := 0 }

/-- How `watch()` (lines 234-238) enters: it first retrieves the bound
progress task (which may raise), then returns at once when the task's
total is a present zero, and only otherwise enters the polling loop. -/
inductive WatchEntry where
  | raised (msg : String)
  | returnsImmediately
  | entersLoop
deriving DecidableEq, Repr

/-- The entry behaviour of `UVRProcessManager.watch` (lines 234-240). -/
def watchStart (ws : WatchState) : WatchEntry :=
  match _get_progress_task ws with
  | .error msg => .raised msg
  | .ok task =>
    if task.total = some 0 then .returnsImmediately else .entersLoop

/-! ## The bounded task runner (`Parallel`, `src/util/parallel.py`)

A job submitted through `Parallel.run` is wrapped by `Parallel.__run`:
`async with self.__semaphore:` acquires one admission-gate slot, the job
body runs (possibly suspending at awaits), and on settling — success or
exception — the `finally` advances the progress task by one and the
`async with` exit releases the slot.  `Parallel.wait` sets the task's
total/completed/visible, returns at once when no jobs were collected,
and otherwise awaits `asyncio.gather(*jobs)` (with its default
`return_exceptions=False`). -/

/-- A job body for the runner: how many suspension points it passes
before settling, and whether it settles by raising. -/
structure JobSpec where
  steps : Nat
  fails : Bool
deriving DecidableEq, Repr

/-- The sink operations `wait` performs on the progress display. -/
inductive SinkOp where
  | update (total : Option Nat) (completed : Option Nat) (visible : Option Bool)
  | advance (n : Nat)
  | stopDisplay
deriving DecidableEq, Repr

/-- The collected state of a `Parallel` instance at `wait` time. -/
structure ParallelState where
  jobs : List JobSpec
  ownsTask : Bool
  ownsProgress : Bool
deriving DecidableEq, Repr

/-- Model of `Parallel.count_jobs`. -/
def count_jobs (p : ParallelState) : Nat := p.jobs.length

/-- The synchronous prefix of `Parallel.wait` (lines 79-96): the initial
`update`, and — when no jobs were collected — the early return without
ever gathering the jobs.  The boolean records whether
`asyncio.gather(*jobs)` is reached. -/
def waitPrefix (p : ParallelState) : List SinkOp × Bool :=
  let total := count_jobs p
  let first := SinkOp.update (some total) (some 0) (some (decide (0 < total)))
  if total = 0 then
    (first ::
      ((if p.ownsTask then [SinkOp.update none none (some false)] else []) ++
        (if p.ownsProgress then [SinkOp.stopDisplay] else [])),
      false)
  else
    ([first], true)

/-! The gather phase, as a small-step machine.  Each submitted job
becomes one task; a scheduler action either steps one task (acquiring
the gate when it is waiting and a slot is free, passing one suspension
point, or settling — which advances the sink, releases the slot, and,
on a failure, resolves the gather future with the first error) or
resumes the awaiting `wait()` coroutine once the gather future is
resolved (first child failure, or all children settled). -/

inductive TState where
  | waiting (steps : Nat) (fails : Bool)
  | running (steps : Nat) (fails : Bool)
  | settled (ok : Bool)
deriving DecidableEq, Repr

/-- State of the gather phase: the tasks, the free admission-gate slots,
the number of sink advances so far, the index of the first task to
settle with a failure (the exception `gather` propagates), and the
outcome `wait()` resumed with (`some none` = returned normally,
`some (some i)` = re-raised task `i`'s exception). -/
structure GatherState where
  tasks : List TState
  avail : Nat
  advanced : Nat
  firstErr : Option Nat
  waitOutcome : Option (Option Nat)
deriving DecidableEq, Repr

def isRunningState : TState → Bool
  | .running _ _ => true
  | _ => false

def isSettledState : TState → Bool
  | .settled _ => true
  | _ => false

def countRunning (ts : List TState) : Nat := ts.countP isRunningState

def countSettled (ts : List TState) : Nat := ts.countP isSettledState

def allSettled (ts : List TState) : Bool := ts.all isSettledState

/-- The state right after `wait` hands the collected jobs to
`asyncio.gather` under a gate of capacity `conc`. -/
def initGather (specs : List JobSpec) (conc : Nat) : GatherState :=
  ⟨specs.map (fun s => .waiting s.steps s.fails), conc, 0, none, none⟩

/-- One scheduling step of task `i` (`Parallel.__run`): a waiting task
acquires a free gate slot; a running task passes one suspension point;
a task at its last step settles — the `finally` advances the sink by
one, the gate slot is released, and a failing task resolves the gather
future if no failure preceded it. -/
def stepTask (st : GatherState) (i : Nat) : GatherState :=
  match st.tasks[i]? with
  | some (.waiting s f) =>
    if 0 < st.avail then
      { st with tasks := st.tasks.set i (.running s f), avail := st.avail - 1 }
    else st
  | some (.running (s + 1) f) =>
    { st with tasks := st.tasks.set i (.running s f) }
  | some (.running 0 f) =>
    { st with
      tasks := st.tasks.set i (.settled (!f))
      avail := st.avail + 1
      advanced := st.advanced + 1
      firstErr := if f && st.firstErr.isNone then some i else st.firstErr }
  | _ => st

/-- Resume the coroutine awaiting the gather: it re-raises the first
child failure as soon as one is recorded — without waiting for the
remaining tasks — and returns normally only when every child has
settled. -/
def resumeWait (st : GatherState) : GatherState :=
  if st.waitOutcome.isSome then st
  else
    match st.firstErr with
    | some i => { st with waitOutcome := some (some i) }
    | none =>
      if allSettled st.tasks then { st with waitOutcome := some none }
      else st

inductive SchedAct where
  | runTask (i : Nat)
  | resume
deriving DecidableEq, Repr

/-- Run a schedule of interleaved actions. -/
def execGather (st : GatherState) : List SchedAct → GatherState
  | [] => st
  | .runTask i :: acts => execGather (stepTask st i) acts
  | .resume :: acts => execGather (resumeWait st) acts

/-- The inductive invariant of the gather phase for gate capacity
`conc`: the sink has been advanced once per settled task, the running
tasks and the free gate slots partition the capacity, the recorded
first error points at a task settled by failure, a raised `wait()`
outcome points at a task settled by failure, and a normal `wait()`
return implies every task has settled. -/
def GatherInv (conc : Nat) (st : GatherState) : Prop :=
  st.advanced = countSettled st.tasks ∧
  countRunning st.tasks + st.avail = conc ∧
  (∀ i, st.firstErr = some i → st.tasks[i]? = some (.settled false)) ∧
  (∀ i, st.waitOutcome = some (some i) →
    st.tasks[i]? = some (.settled false)) ∧
  (st.waitOutcome = some none → allSettled st.tasks = true)

/-- A separator behaviour that fails transiently on the first two
attempts and succeeds on the third. -/
def sampleOutcome : Nat → Except SepError Unit :=
  fun k => if k < 2 then .error .parameterError else .ok ()

/-- A concrete work item. -/
def sampleItem : WorkItem := ⟨"raw", "cache", "v_scene.wav", "UVR-MDX-NET"⟩

/-! ## Lemmas about the embedded operations -/

theorem execOps_unfinished (ops : List QOp) :
    ∀ (q q' : JQueue), execOps q ops = some q' →
      q'.unfinished + ackCount ops = q.unfinished + enqCount ops := by
  induction ops with
  | nil =>
    intro q q' h
    simp [execOps] at h
    simp [h, ackCount, enqCount]
  | cons op ops ih =>
    intro q q' h
    cases op with
    | enqueue it =>
      simp only [execOps] at h
      have := ih _ _ h
      simp [ackCount, enqCount, JQueue.put] at this ⊢
      omega
    | requeue it =>
      simp only [execOps] at h
      have := ih _ _ h
      simp [ackCount, enqCount, JQueue.put] at this ⊢
      omega
    | ack =>
      simp only [execOps] at h
      cases hq : q.task_done with
      | none => rw [hq] at h; exact absurd h (by simp)
      | some q0 =>
        rw [hq] at h
        have := ih _ _ h
        unfold JQueue.task_done at hq
        cases hu : q.unfinished with
        | zero => rw [hu] at hq; simp at hq
        | succ n =>
          rw [hu] at hq
          simp at hq
          subst hq
          simp [ackCount, enqCount] at this ⊢
          omega

theorem loadStep_fst (last : Option String) (wanted : String) :
    (loadStep last wanted).1 = some wanted := by
  unfold loadStep
  by_cases h : some wanted ≠ last
  · simp [h]
  · simp only [ne_eq, not_not] at h
    simp [h]

theorem loadStep_snd (last : Option String) (wanted : String) :
    (loadStep last wanted).2 = true ↔ some wanted ≠ last := by
  unfold loadStep
  by_cases h : some wanted ≠ last <;> simp [h]

/-! ## Invariants of the gather machine -/

theorem countP_set (p : TState → Bool) :
    ∀ (l : List TState) (i : Nat) (a b : TState), l[i]? = some b →
      (l.set i a).countP p + (if p b then 1 else 0) =
        l.countP p + (if p a then 1 else 0) := by
  intro l
  induction l with
  | nil => intro i a b h; simp at h
  | cons x xs ih =>
    intro i a b h
    cases i with
    | zero =>
      simp only [List.getElem?_cons_zero, Option.some.injEq] at h
      subst h
      simp only [List.set_cons_zero, List.countP_cons]
      omega
    | succ j =>
      simp only [List.getElem?_cons_succ] at h
      have := ih j a b h
      simp only [List.set_cons_succ, List.countP_cons]
      omega

theorem countSettled_init (specs : List JobSpec) :
    countSettled (specs.map fun s => TState.waiting s.steps s.fails) = 0 := by
  induction specs with
  | nil => rfl
  | cons s ss ih => simp [countSettled, List.countP_cons, isSettledState]

theorem countRunning_init (specs : List JobSpec) :
    countRunning (specs.map fun s => TState.waiting s.steps s.fails) = 0 := by
  induction specs with
  | nil => rfl
  | cons s ss ih => simp [countRunning, List.countP_cons, isRunningState]

theorem gatherInv_init (specs : List JobSpec) (conc : Nat) :
    GatherInv conc (initGather specs conc) := by
  refine ⟨?_, ?_, ?_, ?_, ?_⟩ <;>
    simp [initGather, countSettled_init, countRunning_init]

theorem allSettled_get (l : List TState) (i : Nat) (b : TState)
    (hall : allSettled l = true) (h : l[i]? = some b) :
    isSettledState b = true := by
  obtain ⟨hlt, he⟩ := List.getElem?_eq_some.mp h
  exact List.all_eq_true.mp hall b (he ▸ List.getElem_mem hlt)

theorem getElem?_lt_length (l : List TState) (i : Nat) (b : TState)
    (h : l[i]? = some b) : i < l.length :=
  (List.getElem?_eq_some.mp h).1

theorem gatherInv_stepTask (conc : Nat) (st : GatherState) (i : Nat)
    (h : GatherInv conc st) : GatherInv conc (stepTask st i) := by
  obtain ⟨hadv, hsum, hfe, hwo, hws⟩ := h
  cases hg : st.tasks[i]? with
  | none =>
    have hst : stepTask st i = st := by simp [stepTask, hg]
    rw [hst]
    exact ⟨hadv, hsum, hfe, hwo, hws⟩
  | some t =>
    cases t with
    | settled ok =>
      have hst : stepTask st i = st := by simp [stepTask, hg]
      rw [hst]
      exact ⟨hadv, hsum, hfe, hwo, hws⟩
    | waiting s f =>
      by_cases ha : 0 < st.avail
      · have hst : stepTask st i =
            { st with tasks := st.tasks.set i (.running s f)
                      avail := st.avail - 1 } := by
          simp [stepTask, hg, ha]
        rw [hst]
        have hcs := countP_set isSettledState st.tasks i (.running s f) _ hg
        have hcr := countP_set isRunningState st.tasks i (.running s f) _ hg
        simp only [isSettledState, isRunningState, if_false, if_true,
          Bool.false_eq_true, Nat.add_zero] at hcs hcr
        have hne : ∀ j, st.tasks[j]? = some (.settled false) → i ≠ j := by
          intro j hj hij
          rw [hij, hj] at hg
          exact absurd hg (by simp)
        refine ⟨?_, ?_, ?_, ?_, ?_⟩
        · dsimp only
          simp only [countSettled] at hadv ⊢
          omega
        · dsimp only
          simp only [countRunning] at hsum ⊢
          omega
        · intro j hj
          dsimp only at hj ⊢
          have := hfe j hj
          rw [List.getElem?_set_ne (hne j this)]
          exact this
        · intro j hj
          dsimp only at hj ⊢
          have := hwo j hj
          rw [List.getElem?_set_ne (hne j this)]
          exact this
        · intro hw
          dsimp only at hw
          have := allSettled_get _ _ _ (hws hw) hg
          simp [isSettledState] at this
      · have hst : stepTask st i = st := by simp [stepTask, hg, ha]
        rw [hst]
        exact ⟨hadv, hsum, hfe, hwo, hws⟩
    | running s f =>
      cases s with
      | succ s' =>
        have hst : stepTask st i =
            { st with tasks := st.tasks.set i (.running s' f) } := by
          simp [stepTask, hg]
        rw [hst]
        have hcs := countP_set isSettledState st.tasks i (.running s' f) _ hg
        have hcr := countP_set isRunningState st.tasks i (.running s' f) _ hg
        simp only [isSettledState, isRunningState, if_false, if_true,
          Bool.false_eq_true, Nat.add_zero] at hcs hcr
        have hne : ∀ j, st.tasks[j]? = some (.settled false) → i ≠ j := by
          intro j hj hij
          rw [hij, hj] at hg
          exact absurd hg (by simp)
        refine ⟨?_, ?_, ?_, ?_, ?_⟩
        · dsimp only
          simp only [countSettled] at hadv ⊢
          omega
        · dsimp only
          simp only [countRunning] at hsum ⊢
          omega
        · intro j hj
          dsimp only at hj ⊢
          have := hfe j hj
          rw [List.getElem?_set_ne (hne j this)]
          exact this
        · intro j hj
          dsimp only at hj ⊢
          have := hwo j hj
          rw [List.getElem?_set_ne (hne j this)]
          exact this
        · intro hw
          dsimp only at hw
          have := allSettled_get _ _ _ (hws hw) hg
          simp [isSettledState] at this
      | zero =>
        have hst : stepTask st i =
            { st with tasks := st.tasks.set i (.settled (!f))
                      avail := st.avail + 1
                      advanced := st.advanced + 1
                      firstErr :=
                        if f && st.firstErr.isNone then some i
                        else st.firstErr } := by
          simp [stepTask, hg]
        rw [hst]
        have hcs := countP_set isSettledState st.tasks i (.settled (!f)) _ hg
        have hcr := countP_set isRunningState st.tasks i (.settled (!f)) _ hg
        simp only [isSettledState, isRunningState, if_false, if_true,
          Bool.false_eq_true, Nat.add_zero] at hcs hcr
        have hne : ∀ j, st.tasks[j]? = some (.settled false) → i ≠ j := by
          intro j hj hij
          rw [hij, hj] at hg
          exact absurd hg (by simp)
        have hgetset : (st.tasks.set i (.settled (!f)))[i]? =
            some (.settled (!f)) :=
          List.getElem?_set_eq_of_lt _ (getElem?_lt_length _ _ _ hg)
        refine ⟨?_, ?_, ?_, ?_, ?_⟩
        · dsimp only
          simp only [countSettled] at hadv ⊢
          omega
        · dsimp only
          simp only [countRunning] at hsum ⊢
          omega
        · intro j hj
          dsimp only at hj ⊢
          by_cases hcond : f && st.firstErr.isNone
          · rw [if_pos hcond] at hj
            have hf : f = true := by
              cases f
              · simp at hcond
              · rfl
            have hij : j = i := by simpa using hj.symm
            subst hij
            rw [hgetset, hf]
            rfl
          · rw [if_neg hcond] at hj
            have := hfe j hj
            rw [List.getElem?_set_ne (hne j this)]
            exact this
        · intro j hj
          dsimp only at hj ⊢
          have := hwo j hj
          rw [List.getElem?_set_ne (hne j this)]
          exact this
        · intro hw
          dsimp only at hw
          have := allSettled_get _ _ _ (hws hw) hg
          simp [isSettledState] at this

theorem gatherInv_resumeWait (conc : Nat) (st : GatherState)
    (h : GatherInv conc st) : GatherInv conc (resumeWait st) := by
  obtain ⟨hadv, hsum, hfe, hwo, hws⟩ := h
  by_cases hdone : st.waitOutcome.isSome
  · have hst : resumeWait st = st := by simp [resumeWait, hdone]
    rw [hst]
    exact ⟨hadv, hsum, hfe, hwo, hws⟩
  · cases hf : st.firstErr with
    | some i =>
      have hst : resumeWait st = { st with waitOutcome := some (some i) } := by
        simp [resumeWait, hdone, hf]
      rw [hst]
      refine ⟨hadv, hsum, hfe, ?_, ?_⟩
      · intro j hj
        dsimp only at hj
        have hij : j = i := by simpa using hj.symm
        subst hij
        exact hfe j hf
      · intro hw
        dsimp only at hw
        simp at hw
    | none =>
      by_cases hall : allSettled st.tasks = true
      · have hst : resumeWait st = { st with waitOutcome := some none } := by
          simp [resumeWait, hdone, hf, hall]
        rw [hst]
        refine ⟨hadv, hsum, hfe, ?_, ?_⟩
        · intro j hj
          dsimp only at hj
          simp at hj
        · intro _
          exact hall
      · have hst : resumeWait st = st := by
          simp [resumeWait, hdone, hf, hall]
        rw [hst]
        exact ⟨hadv, hsum, hfe, hwo, hws⟩

theorem gatherInv_execGather (conc : Nat) (acts : List SchedAct) :
    ∀ (st : GatherState), GatherInv conc st →
      GatherInv conc (execGather st acts) := by
  induction acts with
  | nil => intro st h; exact h
  | cons a acts ih =>
    intro st h
    cases a with
    | runTask i => exact ih _ (gatherInv_stepTask conc st i h)
    | resume => exact ih _ (gatherInv_resumeWait conc st h)

theorem liveCount_initWorkers (jobs : Nat) :
    liveCount (initWorkers jobs) = jobs := by
  induction jobs with
  | zero => rfl
  | succ n ih =>
    simp only [initWorkers, List.replicate_succ] at ih ⊢
    simp [liveCount, List.countP_cons, freshWorker] at ih ⊢
    exact ih

theorem liveCount_respawnDead (ws : List WorkerHandle) :
    liveCount (respawnDead ws) = ws.length := by
  induction ws with
  | nil => rfl
  | cons w ws ih =>
    have hrepl :
        (if w.exitcode.isSome then freshWorker else w).exitcode.isNone = true := by
      cases hw : w.exitcode <;> simp [hw, freshWorker]
    simp only [respawnDead, List.map_cons, liveCount, List.countP_cons, hrepl,
      if_true, List.length_cons]
    simp only [respawnDead, liveCount] at ih
    omega

theorem loadEvents_length (last : Option String) (ts : List String) :
    (loadEvents last ts).length = ts.length := by
  induction ts generalizing last with
  | nil => rfl
  | cons t ts ih => simp [loadEvents, ih]

theorem loadEvents_getD (ts : List String) :
    ∀ (last : Option String) (i : Nat), i < ts.length →
      ((loadEvents last ts).getD i false = true ↔
        (if i = 0 then last else some (ts.getD (i - 1) "")) ≠
          some (ts.getD i "")) := by
  induction ts with
  | nil => intro last i h; simp at h
  | cons t ts ih =>
    intro last i h
    cases i with
    | zero =>
      simp only [loadEvents, List.getD_cons_zero]
      rw [loadStep_snd]
      simp only [if_true]
      exact ne_comm
    | succ j =>
      have hj : j < ts.length := by simpa using h
      simp only [loadEvents, List.getD_cons_succ, loadStep_fst]
      rw [ih (some t) j hj]
      cases j with
      | zero => simp
      | succ k => simp

theorem _separate_step (outcome : Nat → Except SepError Unit) (a : Nat)
    (h : outcome a = .error .parameterError) (ha : a < 3) :
    _separate outcome a = _separate outcome (a + 1) := by
  conv_lhs => unfold _separate
  simp [h, ha]

theorem _separate_stop3 (outcome : Nat → Except SepError Unit)
    (h : outcome 3 = .error .parameterError) :
    _separate outcome 3 = .error .parameterError := by
  conv_lhs => unfold _separate
  simp [h]

theorem _separate_ok (outcome : Nat → Except SepError Unit) (a : Nat)
    (h : outcome a = .ok ()) : _separate outcome a = .ok () := by
  conv_lhs => unfold _separate
  simp [h]

theorem _separate_other (outcome : Nat → Except SepError Unit) (a : Nat)
    (m : String) (h : outcome a = .error (.otherError m)) :
    _separate outcome a = .error (.otherError m) := by
  conv_lhs => unfold _separate
  simp [h]

/-! ## The claims -/

/-- C1: on an unrecoverable error the worker re-enqueues the original
item before acknowledging the dequeued one, so the failure path always
succeeds, leaves the unfinished counter unchanged net, and leaves the
item retrievable; and over every successfully executed sequence of
enqueue/acknowledge/requeue operations the unfinished counter equals the
number of enqueue-like operations minus the acknowledgements. -/
theorem claim_C1 :
    (∀ (q : JQueue) (it : WorkItem),
      workerFailurePath q it = some ⟨q.items ++ [it], q.unfinished⟩ ∧
      ∀ q'', workerFailurePath q it = some q'' →
        it ∈ q''.items ∧ q''.unfinished = q.unfinished) ∧
    (∀ (ops : List QOp) (q' : JQueue),
      execOps JQueue.empty ops = some q' →
        q'.unfinished + ackCount ops = enqCount ops) := by
  constructor
  · intro q it
    have heq : workerFailurePath q it =
        some ⟨q.items ++ [it], q.unfinished⟩ := rfl
    refine ⟨heq, ?_⟩
    intro q'' h
    rw [heq] at h
    have := Option.some.inj h
    subst this
    exact ⟨List.mem_append_right _ (List.mem_singleton.mpr rfl), rfl⟩
  · intro ops q' h
    have := execOps_unfinished ops JQueue.empty q' h
    simpa [JQueue.empty] using this

theorem claim_C1_witness :
    execOps JQueue.empty
        [QOp.enqueue sampleItem, QOp.requeue sampleItem, QOp.ack, QOp.ack] =
      some ⟨[sampleItem, sampleItem], 0⟩ ∧
    (0 : Nat) + ackCount
        [QOp.enqueue sampleItem, QOp.requeue sampleItem, QOp.ack, QOp.ack] =
      enqCount
        [QOp.enqueue sampleItem, QOp.requeue sampleItem, QOp.ack, QOp.ack] :=
  ⟨by rfl,
    claim_C1.2
      [QOp.enqueue sampleItem, QOp.requeue sampleItem, QOp.ack, QOp.ack]
      ⟨[sampleItem, sampleItem], 0⟩ (by rfl)⟩

/-- C2 (counterexample to the claim as stated): with two submitted jobs
under limit 3, the first failing immediately and the second still
pending, `wait()` resumes with the first job's exception while the sink
has been advanced only once (not twice) and the second job has not
settled — `join()` does not await every job before raising. -/
theorem claim_C2_counterexample :
    (execGather (initGather [⟨0, true⟩, ⟨5, false⟩] 3)
        [.runTask 0, .runTask 0, .resume]).waitOutcome = some (some 0) ∧
    (execGather (initGather [⟨0, true⟩, ⟨5, false⟩] 3)
        [.runTask 0, .runTask 0, .resume]).advanced = 1 ∧
    countSettled (execGather (initGather [⟨0, true⟩, ⟨5, false⟩] 3)
        [.runTask 0, .runTask 0, .resume]).tasks = 1 ∧
    (execGather (initGather [⟨0, true⟩, ⟨5, false⟩] 3)
        [.runTask 0, .runTask 0, .resume]).tasks[1]? =
      some (TState.waiting 5 false) := by
  decide

/-- C2 (amended): in every reachable state of the gather phase the sink
has been advanced exactly once per settled job; when `wait()` re-raises,
the propagated error is that of a job that settled with failure (the
remaining jobs need not have settled); and `wait()` returns normally
only once every job has settled. -/
theorem claim_C2 :
    ∀ (specs : List JobSpec) (conc : Nat) (acts : List SchedAct)
      (st : GatherState),
      st = execGather (initGather specs conc) acts →
        st.advanced = countSettled st.tasks ∧
        (∀ i, st.waitOutcome = some (some i) →
          st.tasks[i]? = some (.settled false)) ∧
        (st.waitOutcome = some none → allSettled st.tasks = true) := by
  intro specs conc acts st hst
  subst hst
  have h := gatherInv_execGather conc acts _ (gatherInv_init specs conc)
  exact ⟨h.1, h.2.2.2.1, h.2.2.2.2⟩

theorem claim_C2_witness :
    (execGather (initGather [⟨0, true⟩, ⟨5, false⟩] 3)
        [.runTask 0, .runTask 0, .resume]).tasks[0]? =
      some (TState.settled false) :=
  (claim_C2 [⟨0, true⟩, ⟨5, false⟩] 3 [.runTask 0, .runTask 0, .resume] _
    rfl).2.1 0 (by decide)

/-- C3: in every state the gather phase can reach from `initGather`,
the running tasks and the free admission-gate slots partition the
configured capacity, so at no instant do more than `conc` jobs run
concurrently. -/
theorem claim_C3 (specs : List JobSpec) (conc : Nat) (acts : List SchedAct) :
    countRunning (execGather (initGather specs conc) acts).tasks +
        (execGather (initGather specs conc) acts).avail = conc ∧
    countRunning (execGather (initGather specs conc) acts).tasks ≤ conc := by
  have h := gatherInv_execGather conc acts _ (gatherInv_init specs conc)
  have hsum := h.2.1
  exact ⟨hsum, by omega⟩

/-- C4: the pool starts with exactly `jobs` live workers; one watch
iteration keeps the pool size constant, replaces exactly the exited
workers 1-for-1 (position by position), and restores the live count to
the pool size. -/
theorem claim_C4 (jobs : Nat) (ws : List WorkerHandle) :
    (initWorkers jobs).length = jobs ∧
    liveCount (initWorkers jobs) = jobs ∧
    (respawnDead ws).length = ws.length ∧
    liveCount (respawnDead ws) = ws.length ∧
    (∀ i : Nat, (respawnDead ws)[i]? =
      (ws[i]?).map fun w => if w.exitcode.isSome then freshWorker else w) := by
  refine ⟨?_, liveCount_initWorkers jobs, ?_, liveCount_respawnDead ws, ?_⟩
  · simp [initWorkers]
  · simp [respawnDead]
  · intro i
    simp [respawnDead, List.getElem?_map]

/-- C5: the code contradicts the claimed stop-signalling.  Applying
`terminate()` to a freshly started worker neither hard-kills it nor
changes anything the child process observes: the parent-side branch
`if self._run:` sees the always-truthy `Value` wrapper and rebinds the
parent's attribute only, so the dequeue-loop condition
`while self._run:` the child re-checks at its next poll timeout is still
true, not false. -/
theorem claim_C5 :
    (terminate startedWorker).hardKilled = false ∧
    (terminate startedWorker).childRun = startedWorker.childRun ∧
    loopCond (terminate startedWorker) = true := by
  decide

/-- C6: `submit` raises exactly when no model tag has been set (the
error is returned synchronously, before anything is enqueued, so the
queue is untouched); with a tag set it enqueues the item's tuple
extended with the wanted tag and increments the unfinished counter by
one. -/
theorem claim_C6 (m : ManagerState) (i o f : String) :
    (m.wantedModel = none →
      submit m i o f = .error "No model has been set yet.") ∧
    (∀ tag, m.wantedModel = some tag →
      submit m i o f = .ok { m with queue := m.queue.put ⟨i, o, f, tag⟩ } ∧
      (m.queue.put ⟨i, o, f, tag⟩).unfinished = m.queue.unfinished + 1) ∧
    ((∃ e, submit m i o f = .error e) ↔ m.wantedModel = none) := by
  refine ⟨?_, ?_, ?_⟩
  · intro h
    simp [submit, h]
  · intro tag h
    exact ⟨by simp [submit, h], rfl⟩
  · constructor
    · rintro ⟨e, he⟩
      cases h : m.wantedModel with
      | none => rfl
      | some tag => simp [submit, h] at he
    · intro h
      exact ⟨"No model has been set yet.", by simp [submit, h]⟩

theorem claim_C6_witness :
    submit ⟨JQueue.empty, none⟩ "raw" "cache" "v_scene.wav" =
      .error "No model has been set yet." :=
  (claim_C6 ⟨JQueue.empty, none⟩ "raw" "cache" "v_scene.wav").1 rfl

/-- C7: per dequeued item the worker reloads exactly when the item's
tag differs from its last-loaded tag, and afterwards the last-loaded tag
is the item's tag; over a whole dequeue sequence, the load event at
position `i` fires exactly when item `i`'s tag differs from item
`i-1`'s tag (or from the initial last-loaded tag for the first item). -/
theorem claim_C7 (last : Option String) (ts : List String) :
    (∀ t, (loadStep last t).1 = some t ∧
      ((loadStep last t).2 = true ↔ some t ≠ last)) ∧
    (loadEvents last ts).length = ts.length ∧
    (∀ i, i < ts.length →
      ((loadEvents last ts).getD i false = true ↔
        (if i = 0 then last else some (ts.getD (i - 1) "")) ≠
          some (ts.getD i ""))) := by
  exact ⟨fun t => ⟨loadStep_fst last t, loadStep_snd last t⟩,
    loadEvents_length last ts, loadEvents_getD ts last⟩

theorem claim_C7_witness :
    ((loadEvents none ["A", "A", "B"]).getD 2 false = true ↔
      (if (2 : Nat) = 0 then (none : Option String)
        else some (["A", "A", "B"].getD 1 "")) ≠
        some (["A", "A", "B"].getD 2 "")) :=
  (claim_C7 none ["A", "A", "B"]).2.2 2 (by decide)

/-- C8: a transient (`ParameterError`) failure is retried in-process:
a run that keeps failing transiently through attempts 0..3 gives up with
that error (3 retries after the first attempt, whatever later attempts
would do); if attempts before some `n ≤ 3` fail transiently and attempt
`n` succeeds, the call succeeds; a non-transient error on the first
attempt escalates immediately. -/
theorem claim_C8 (outcome : Nat → Except SepError Unit) :
    (∀ m, outcome 0 = .error (.otherError m) →
      _separate outcome 0 = .error (.otherError m)) ∧
    ((∀ k, k ≤ 3 → outcome k = .error .parameterError) →
      _separate outcome 0 = .error .parameterError) ∧
    (∀ n, n ≤ 3 → (∀ k, k < n → outcome k = .error .parameterError) →
      outcome n = .ok () → _separate outcome 0 = .ok ()) := by
  refine ⟨?_, ?_, ?_⟩
  · intro m h
    exact _separate_other outcome 0 m h
  · intro h
    rw [_separate_step outcome 0 (h 0 (by omega)) (by omega),
      _separate_step outcome 1 (h 1 (by omega)) (by omega),
      _separate_step outcome 2 (h 2 (by omega)) (by omega)]
    exact _separate_stop3 outcome (h 3 (by omega))
  · intro n hn hpe hok
    interval_cases n
    · exact _separate_ok outcome 0 hok
    · rw [_separate_step outcome 0 (hpe 0 (by omega)) (by omega)]
      exact _separate_ok outcome 1 hok
    · rw [_separate_step outcome 0 (hpe 0 (by omega)) (by omega),
        _separate_step outcome 1 (hpe 1 (by omega)) (by omega)]
      exact _separate_ok outcome 2 hok
    · rw [_separate_step outcome 0 (hpe 0 (by omega)) (by omega),
        _separate_step outcome 1 (hpe 1 (by omega)) (by omega),
        _separate_step outcome 2 (hpe 2 (by omega)) (by omega)]
      exact _separate_ok outcome 3 hok

theorem claim_C8_witness : _separate sampleOutcome 0 = .ok () :=
  (claim_C8 sampleOutcome).2.2 2 (by omega)
    (fun k hk => by simp [sampleOutcome, hk])
    (by simp [sampleOutcome])

/-- C9: with zero collected jobs, `wait` updates the sink with total 0,
completed 0 and visible false (hiding the line), performs no advance,
and returns without ever reaching the gather of the jobs. -/
theorem claim_C9 (p : ParallelState) (h : count_jobs p = 0) :
    (waitPrefix p).2 = false ∧
    (waitPrefix p).1.head? =
      some (SinkOp.update (some 0) (some 0) (some false)) ∧
    (∀ n, SinkOp.advance n ∉ (waitPrefix p).1) := by
  refine ⟨?_, ?_, ?_⟩
  · simp [waitPrefix, h]
  · simp [waitPrefix, h]
  · intro n
    simp only [waitPrefix, h]
    by_cases ht : p.ownsTask <;> by_cases hp : p.ownsProgress <;>
      simp [ht, hp]

theorem claim_C9_witness :
    (waitPrefix ⟨[], true, true⟩).2 = false ∧
    SinkOp.advance 1 ∉ (waitPrefix ⟨[], true, true⟩).1 :=
  ⟨(claim_C9 ⟨[], true, true⟩ rfl).1,
    (claim_C9 ⟨[], true, true⟩ rfl).2.2 1⟩

/-- C10: `watch()` called before any `configure_progress` raises the
"Progress has not been configured." error at its entry instead of
entering the polling loop — and generally raises it exactly when the
display or the task id is unbound — while after any
`configure_progress` both are bound, so that error can no longer
occur. -/
theorem claim_C10 :
    watchStart initWatchState = .raised "Progress has not been configured." ∧
    (∀ ws : WatchState, ws.display = none ∨ ws.taskId = none →
      watchStart ws = .raised "Progress has not been configured.") ∧
    (∀ (ws : WatchState) (progress : List (Nat × ProgressTask)) (tid : Nat)
      (total : Option Nat) (visible : Option Bool),
      watchStart (configure_progress ws progress tid total visible) ≠
        .raised "Progress has not been configured.") := by
  refine ⟨rfl, ?_, ?_⟩
  · intro ws h
    cases h with
    | inl h => cases hd : ws.taskId <;> simp [watchStart, _get_progress_task, h, hd]
    | inr h => cases hd : ws.display <;> simp [watchStart, _get_progress_task, h, hd]
  · intro ws progress tid total visible
    simp only [watchStart, configure_progress, _get_progress_task]
    cases hl : (updateTask progress tid total (some 0) visible).lookup tid with
    | none =>
      simp [hl]
    | some t =>
      simp only [hl]
      by_cases ht : t.total = some 0 <;> simp [ht]

theorem claim_C10_witness :
    watchStart ⟨none, some 3, 7⟩ =
      .raised "Progress has not been configured." :=
  claim_C10.2.1 ⟨none, some 3, 7⟩ (Or.inl rfl)
